import Mathlib

/-!
Verification of the neutrino-notebooks cell compiler against its specification.

The Python source is shallowly embedded: strings are modelled as `List Char`
(or `String` where no character-level processing occurs), Python `dict`s as
insertion-ordered association lists, exceptions as `Option`/`Except`, and
`print`-style warnings as explicit boolean flags in results.
-/

namespace Neutrino

/-- The whitespace set stripped by Python `str.strip()` with no argument. -/
def pyIsSpace (c : Char) : Bool :=
  c = ' ' || c = '\t' || c = '\n' || c = '\r' || c = '\x0b' || c = '\x0c'

/-- Python `str.strip()`: drop leading and trailing whitespace. -/
def pyStrip (cs : List Char) : List Char :=
  ((cs.dropWhile pyIsSpace).reverse.dropWhile pyIsSpace).reverse

/-- Python `str.split(sep)` for a single separator character: splits at every
occurrence, keeping empty pieces. -/
def splitChar (sep : Char) : List Char → List (List Char)
  | [] => [[]]
  | c :: cs =>
    match splitChar sep cs with
    | [] => [[c]]
    | r :: rs => if c = sep then [] :: r :: rs else (c :: r) :: rs

/-!
## Field Spec Parser: `split_types` (parser/parser.py, lines 84-104)

The Python function walks the string with a stack of open brackets, appending
a (stripped) segment whenever it meets a comma with the stack empty.
`stack.pop()` on an empty stack raises `IndexError`, modelled as `none`.
-/

def isOpenBracket (c : Char) : Bool := c = '[' || c = '{'

def isCloseBracket (c : Char) : Bool := c = ']' || c = '}'

/-- The loop of `split_types`: `stack` is the bracket stack, `cur` the
characters of the current segment in reverse. -/
def splitTypesGo : List Char → List Char → List Char → Option (List (List Char))
  | [], _, cur => some [pyStrip cur.reverse]
  | c :: cs, stack, cur =>
    if isOpenBracket c then splitTypesGo cs (c :: stack) (c :: cur)
    else if isCloseBracket c then
      match stack with
      | [] => none
      | _ :: st => splitTypesGo cs st (c :: cur)
    else if c = ',' then
      if stack.isEmpty then
        (splitTypesGo cs [] []).map (fun r => pyStrip cur.reverse :: r)
      else splitTypesGo cs stack (c :: cur)
    else splitTypesGo cs stack (c :: cur)

/-- `split_types(s)`: split a comma-joined type list at top-level commas only. -/
def split_types (s : List Char) : Option (List (List Char)) :=
  splitTypesGo s [] []

/-- Bracket-scan from depth `d`: `true` iff no closing bracket underflows and
the final depth is zero.  `scanBalanced cs 0` says `cs` has balanced
brackets/braces. -/
def scanBalanced : List Char → Nat → Bool
  | [], d => d == 0
  | c :: cs, d =>
    if isOpenBracket c then scanBalanced cs (d + 1)
    else if isCloseBracket c then d != 0 && scanBalanced cs (d - 1)
    else scanBalanced cs d

/-- No comma occurs at bracket depth zero when scanning from depth `d`. -/
def noTopComma : List Char → Nat → Bool
  | [], _ => true
  | c :: cs, d =>
    if isOpenBracket c then noTopComma cs (d + 1)
    else if isCloseBracket c then noTopComma cs (d - 1)
    else if c = ',' && d == 0 then false
    else noTopComma cs d

/-- Depth change contributed by one character of a bracket scan. -/
def bracketStep (c : Char) (d : Nat) : Nat :=
  if isOpenBracket c then d + 1 else if isCloseBracket c then d - 1 else d

/-- Reference split: cut the string at every comma seen at bracket depth zero.
Returns the first segment and the list of later segments (all unstripped). -/
def splitTopSpec : List Char → Nat → List Char × List (List Char)
  | [], _ => ([], [])
  | c :: cs, d =>
    if c = ',' && d == 0 then
      ([], (splitTopSpec cs 0).1 :: (splitTopSpec cs 0).2)
    else
      ((c :: (splitTopSpec cs (bracketStep c d)).1), (splitTopSpec cs (bracketStep c d)).2)

/-- Rejoin segments with commas; inverse of a comma split. -/
def joinSegs : List (List Char) → List Char
  | [] => []
  | [s] => s
  | s :: r :: rs => s ++ ',' :: joinSegs (r :: rs)

/-!
## Field rendering: `_field_to_py_str`
(http_cell.py lines 60-71; websocket_cell.py lines 251-262 are identical)

`name, type_ = field.split(":")` raises `ValueError` unless the split yields
exactly two parts, modelled as `none`.  The `Bool` in the result records
whether the no-type-hint warning was printed.
-/

/-- Python `str.replace(c, '')`: remove every occurrence of one character. -/
def removeAllChar (x : Char) (cs : List Char) : List Char :=
  cs.filter (fun c => c ≠ x)

def field_to_py_str (field : List Char) : Option (List Char × Bool) :=
  if ':' ∈ field then
    match splitChar ':' field with
    | [name, ty] =>
      let isOpt := '?' ∈ ty
      let cleaned := pyStrip (removeAllChar '!' (removeAllChar '?' ty))
      some ("    ".data ++ pyStrip name ++ ": ".data ++
        (if isOpt then "Union[".data ++ cleaned ++ ", None]".data else cleaned),
        false)
    | _ => none
  else
    some ("    ".data ++ pyStrip field ++ ": Any".data, true)

/-!
## Scheduled-cell interval parsing: `_parse_interval`
(scheduled_cell.py lines 59-75)

`interval[-1]` on an empty string raises `IndexError` and `int(...)` raises
`ValueError` on non-numeric text, both modelled as `none`.  The `Bool`
records the unsupported-unit warning.
-/

def digitsToNat (ds : List Char) : Nat :=
  ds.foldl (fun a c => a * 10 + (c.toNat - '0'.toNat)) 0

/-- Python `int()` restricted to non-empty unsigned digit strings; any other
input is modelled as a `ValueError` (`none`). -/
def pyInt (cs : List Char) : Option Nat :=
  if cs ≠ [] ∧ cs.all Char.isDigit then some (digitsToNat cs) else none

def parse_interval (cs : List Char) : Option (Nat × Bool) :=
  match cs.getLast? with
  | none => none
  | some u =>
    match pyInt cs.dropLast with
    | none => none
    | some v =>
      if u = 's' then some (v, false)
      else if u = 'm' then some (v * 60, false)
      else if u = 'h' then some (v * 3600, false)
      else some (v, true)

/-!
## Connection Manager (websockets_manager_template.py lines 11-122)

`room_connections: dict[str, dict[str, WebSocket]]` is modelled as an
insertion-ordered association list; WebSocket handles are `Nat`.  The three
dictionary operations used by the template are embedded with Python `dict`
semantics: lookup and update act on the first (unique, in a real dict)
binding of a key, assignment to a fresh key appends.  Awaited sends are
modelled by returning the list of `(connection, message)` deliveries in
execution order.
-/

abbrev RoomMap := List (String × Nat)

abbrev Registry := List (String × RoomMap)

/-- Python `d.get(k)` / `d[k]` lookup. -/
def dictGet {α : Type} (m : List (String × α)) (k : String) : Option α :=
  (m.find? (fun p => p.1 = k)).map (·.2)

/-- Python `d[k] = v`: replace in place, or append a fresh binding. -/
def dictSet {α : Type} : List (String × α) → String → α → List (String × α)
  | [], k, v => [(k, v)]
  | (k', v') :: rest, k, v =>
    if k' = k then (k, v) :: rest else (k', v') :: dictSet rest k v

/-- Python `d.pop(k)`: drop the binding of `k`. -/
def dictPop {α : Type} : List (String × α) → String → List (String × α)
  | [], _ => []
  | (k', v') :: rest, k =>
    if k' = k then rest else (k', v') :: dictPop rest k

/-- Python truthiness of an optional string (`if client_id:`): `None` and
the empty string are falsy. -/
def pyTruthyStr : Option String → Bool
  | none => false
  | some s => s ≠ ""

/-- `connect(websocket, room_id=None, client_id=None)`: default the room to
`'default'` and the client to `'0'`, create the room's dict if missing, and
register the connection under those keys. -/
def connect (st : Registry) (ws : Nat)
    (roomId? clientId? : Option String) : Registry :=
  let room := roomId?.getD "default"
  let client := clientId?.getD "0"
  dictSet st room (dictSet ((dictGet st room).getD []) client ws)

/-- `disconnect(websocket, room_id='default')`: in the room's dict, find the
first client whose stored connection equals `websocket` and remove it;
a no-op if the room or the connection is absent. -/
def disconnect (st : Registry) (ws : Nat) (room : String) : Registry :=
  match dictGet st room with
  | none => st
  | some m =>
    match (m.find? (fun p => p.2 = ws)).map (·.1) with
    | none => st
    | some client => dictSet st room (dictPop m client)

/-- `send_message(message, room_id='default', client_id=None)`: unicast to
the client if `client_id` is truthy, else broadcast to the whole room.
Returns the deliveries performed. -/
def send_message (st : Registry) (msg : String) (room : String)
    (clientId? : Option String) : List (Nat × String) :=
  let m := (dictGet st room).getD []
  if pyTruthyStr clientId? then
    match dictGet m (clientId?.getD "") with
    | some ws => [(ws, msg)]
    | none => []
  else
    m.map (fun p => (p.2, msg))

/-- `broadcast_all(message)`: every room, every client. -/
def broadcast_all (st : Registry) (msg : String) : List (Nat × String) :=
  (st.map (fun r => r.2.map (fun p => (p.2, msg)))).flatten

/-- The `target` component of a routed message: a bare client id (string or
int) or a dict carrying optional `client_id` / `room_id`. -/
inductive WsTarget where
  | str (s : String)
  | int (n : Int)
  | dict (clientId? : Option String) (roomId? : Option String)

/-- A payload handed to `parse_and_send_message`: a bare value, or a
two-element tuple `(data, target)`. -/
inductive WsMessage (D : Type) where
  | plain (d : D)
  | pair (d : D) (t : WsTarget)

/-- `parse_and_send_message(message)` (lines 95-119): a `(data, target)`
pair with a bare string/int target is unicast via `send_message` with the
room argument left at its `'default'` default; a dict target dispatches on
the truthiness of its `client_id` / `room_id`; a bare value is broadcast to
everyone.  `json.dumps` is an external collaborator passed in as `dumps`. -/
def parse_and_send_message {D : Type} (dumps : D → String) (st : Registry) :
    WsMessage D → List (Nat × String)
  | .pair d t =>
    let j := dumps d
    match t with
    | .str s => send_message st j "default" (some s)
    | .int n => send_message st j "default" (some (toString n))
    | .dict c? r? =>
      if pyTruthyStr c? && pyTruthyStr r? then send_message st j (r?.getD "") c?
      else if pyTruthyStr r? then send_message st j (r?.getD "") none
      else if pyTruthyStr c? then send_message st j "default" c?
      else []
  | .plain d => broadcast_all st (dumps d)

/-- All connection handles stored in the registry. -/
def connOf (st : Registry) : List Nat :=
  (st.map (fun r => r.2.map (·.2))).flatten

/-- Connection handles stored in one room. -/
def roomConns (st : Registry) (r : String) : List Nat :=
  ((dictGet st r).getD []).map (·.2)

/-- A registry reachable through Python dicts: room keys are unique and each
room's client keys are unique. -/
def registryWF (st : Registry) : Prop :=
  (st.map (·.1)).Nodup ∧ ∀ m ∈ st.map (·.2), (m.map (·.1)).Nodup

instance : DecidablePred registryWF := fun st => by
  unfold registryWF; infer_instance

def isBareTarget : WsTarget → Bool
  | .str _ => true
  | .int _ => true
  | .dict _ _ => false

/-!
## Cell Splitter: `clean_source` (parser/parser.py lines 15-43)

Lines are `List Char`.  The walker keeps two flags: `insideML` (inside the
first block-quoted region) and `collected` (the first chunk is finished).
Declaration lines are stored stripped and with leading `#` removed; source
lines keep their original text.
-/

def tripleQuoteD : List Char := ['"', '"', '"']

def tripleQuoteS : List Char := ['\'', '\'', '\'']

/-- The Python test `startswith` on the two triple-quote openers. -/
def isQuoteLine (st : List Char) : Bool :=
  tripleQuoteD.isPrefixOf st || tripleQuoteS.isPrefixOf st

/-- The Python test `startswith` on a single `#`. -/
def isHashLine (st : List Char) : Bool := (['#'] : List Char).isPrefixOf st

/-- `stripped_line.lstrip` of all leading `#` followed by `strip`. -/
def stripHash (st : List Char) : List Char :=
  pyStrip (st.dropWhile (fun c => c = '#'))

def cleanSourceGo : List (List Char) → Bool → Bool →
    List (List Char) × List (List Char)
  | [], _, _ => ([], [])
  | l :: ls, insideML, collected =>
    if collected then
      let r := cleanSourceGo ls insideML true
      (r.1, l :: r.2)
    else
      let st := pyStrip l
      if isQuoteLine st then
        if insideML then cleanSourceGo ls false true
        else cleanSourceGo ls true false
      else if insideML || isHashLine st then
        let r := cleanSourceGo ls insideML false
        (stripHash st :: r.1, r.2)
      else
        let r := cleanSourceGo ls insideML true
        (r.1, l :: r.2)

def clean_source (lines : List (List Char)) :
    List (List Char) × List (List Char) :=
  cleanSourceGo lines false false

/-- Declaration lines harvested from a pure first-chunk prefix: quote
delimiters toggle the region and are dropped, `#`-lines and in-region lines
are kept (hash-stripped). -/
def declSpec : List (List Char) → Bool → List (List Char)
  | [], _ => []
  | l :: ls, inside =>
    let st := pyStrip l
    if isQuoteLine st then declSpec ls (!inside)
    else if inside || isHashLine st then stripHash st :: declSpec ls inside
    else declSpec ls inside

/-- A list of lines is a complete declaration chunk: every line is a quote
delimiter, inside the quoted region, or a `#` comment, and a closing quote
delimiter can only be the final line (it ends the chunk). -/
def chunkOK : List (List Char) → Bool → Bool
  | [], _ => true
  | l :: ls, inside =>
    let st := pyStrip l
    if isQuoteLine st then
      if inside then ls.isEmpty else chunkOK ls true
    else if inside || isHashLine st then chunkOK ls inside
    else false

/-!
## Compiled cells and assembly (parser/parser.py lines 224-245)

Cells as constructed by `parse_cell`: field lists are stored after the
constructors' `_parse_fields` normalization.  `parse_notebook_cells` sorts
the parsed cells with Python's stable `sorted` keyed on
`isinstance(x, HttpCell)` (`False < True`), embedded as `List.mergeSort`
(also a stable sort, hence extensionally the same function on every input).
-/

structure HttpCellData where
  http : String
  endpoint : String
  body : List String
  resp : List String
  query : List String
  headers : List String
  funcBody : String

structure WsCellData where
  endpoint : String
  funcBody : String
  wsType : String
  messageSchema : List String
  query : List String
  headers : List String
  validate : Bool

structure SchedCellData where
  funcBody : String
  cron : Option String
  interval : Option String

inductive Cell where
  | code (source : String)
  | http (c : HttpCellData)
  | ws (c : WsCellData)
  | sched (c : SchedCellData)

/-- The Python test `isinstance` against the HTTP cell class. -/
def isHttpCell : Cell → Bool
  | .http _ => true
  | _ => false

/-- The comparison induced by sorting on the boolean key used by the
assembler, with `False < True`. -/
def cellKeyLe (a b : Cell) : Bool := !(isHttpCell a) || isHttpCell b

/-- The assembler's stable sort of parsed cells on that key. -/
def sortCells (cells : List Cell) : List Cell :=
  cells.mergeSort cellKeyLe

/-!
## Code generation helpers

The generators build Python source text.  A single-quote character is kept
in the named constant `sq`; literal braces in generated text are written
with `\x7b` / `\x7d` escapes.

The Python `ast` module (used by `get_function_name_from_ast` and
`is_async_function` in util/ast.py) is an external collaborator; the spec
treats function introspection as a consumed capability.  It is passed to
the generators as an `AstCap`, whose results are `Except` because
`ast.parse` raises `SyntaxError` on invalid source.
-/

def sq : String := String.mk ['\'']

/-- Rendering of the introspected function name inside an f-string:
Python formats `None` as the text `None`. -/
def pyStrOfName (o : Option String) : String := o.getD "None"

/-- Introspection capability: function name and asynchrony of a body. -/
structure AstCap where
  funcName : String → Except String (Option String)
  isAsync : String → Except String Bool

/-- A regex `\w` character (ASCII). -/
def isWordChar (c : Char) : Bool :=
  c.isAlpha || c.isDigit || c = '_'

/-- Scanner state for the `re.findall` over the pattern
`/\x7b([\w]+)\x7d` in `_extract_url_params`: scanning plainly, having
just seen `/`, or inside `/\x7b` with the word characters read so far. -/
inductive UrlScan where
  | plain
  | slash
  | brace (acc : List Char)

/-- Single left-to-right pass equivalent to the regex `findall`: a match is
`/\x7b`, one or more word characters, `\x7d`; a failed candidate resumes
scanning at the failing character (which can itself start a new `/`). -/
def findUrlParamsGo : List Char → UrlScan → List (List Char)
  | [], _ => []
  | c :: cs, .plain =>
    findUrlParamsGo cs (if c = '/' then .slash else .plain)
  | c :: cs, .slash =>
    if c = '{' then findUrlParamsGo cs (.brace [])
    else findUrlParamsGo cs (if c = '/' then .slash else .plain)
  | c :: cs, .brace acc =>
    if isWordChar c then findUrlParamsGo cs (.brace (c :: acc))
    else if c = '}' && !acc.isEmpty then
      acc.reverse :: findUrlParamsGo cs .plain
    else findUrlParamsGo cs (if c = '/' then .slash else .plain)

/-- `_extract_url_params` (names only; the type is always `str`). -/
def extract_url_params (endpoint : String) : List String :=
  (findUrlParamsGo endpoint.data .plain).map String.mk

/-- Python `str.split(sep)` for a non-empty separator string, fuelled by
the input length (each step consumes at least one character). -/
def pySplitGo (sep : List Char) : Nat → List Char → List (List Char)
  | _, [] => [[]]
  | 0, l => [l]
  | fuel + 1, c :: cs =>
    if sep.isPrefixOf (c :: cs) then
      [] :: pySplitGo sep fuel (List.drop sep.length (c :: cs))
    else
      match pySplitGo sep fuel cs with
      | [] => [[c]]
      | r :: rs => (c :: r) :: rs

def pySplitOnSub (sep l : List Char) : List (List Char) :=
  pySplitGo sep l.length l

/-- Python `str.replace(pat, repl)` (all non-overlapping occurrences),
via split-and-rejoin. -/
def pyReplace (s pat repl : String) : String :=
  String.mk (List.intercalate repl.data (pySplitOnSub pat.data s.data))

/-- Python `str.lower()` (ASCII). -/
def pyLower (s : String) : String := String.mk (s.data.map Char.toLower)

/-- Python `str.title()`: uppercase a letter that follows a non-letter,
lowercase every other letter (ASCII). -/
def pyTitleGo : List Char → Bool → List Char
  | [], _ => []
  | c :: cs, prevAlpha =>
    (if c.isAlpha && !prevAlpha then c.toUpper else c.toLower) ::
      pyTitleGo cs c.isAlpha

/-- `snake_to_pascal` (util/strings.py lines 5-16): split on underscores,
title-case each component, join. -/
def snake_to_pascal (s : String) : String :=
  String.mk (((splitChar '_' s.data).map (fun w => pyTitleGo w false)).flatten)

/-- `field.split(":")[0].strip()` — the `clean_field` helpers. -/
def fieldName (field : String) : String :=
  String.mk (pyStrip ((splitChar ':' field.data).headD []))

/-- The `clean_field` of `_generate_endpoint_signature`: the declared type,
`Any` when the field has no colon, else the text after the first colon. -/
def sigFieldType (field : String) : String :=
  match splitChar ':' field.data with
  | [_] => "Any"
  | _ :: t :: _ => String.mk (pyStrip t)
  | [] => "Any"

/-!
## WebSocket Cell Generator (websocket_cell.py)

Faithful transcription of `WebSocketCell.__str__` and its helpers.  The
dead computation of `func_params` in `__str__` (lines 314-317, never used)
is omitted.  `get_function_name_from_ast` is evaluated once; the second
call inside `_generate_code` returns the same value (it is pure, and any
`SyntaxError` would already have surfaced at the first call).
-/

/-- `field.split("=")[0].strip()` in `_generate_streaming_wrapper`. -/
def eqFieldName (field : String) : String :=
  String.mk (pyStrip ((splitChar '=' field.data).headD []))

def ws_endpoint_signature (c : WsCellData) (fn : String) : String :=
  let queryStrs := c.query.map (fun f => fieldName f ++ ": " ++ sigFieldType f)
  let urlStrs := (extract_url_params c.endpoint).map (fun n => n ++ ": str")
  let allParams := String.intercalate ", " (queryStrs ++ urlStrs)
  let allParams := if allParams ≠ "" then ", " ++ allParams else ""
  "async def " ++ fn ++ "_websocket(websocket: WebSocket" ++ allParams ++ "):"

def ws_invocation_params (c : WsCellData) (skip : Bool) : String :=
  let qnames := c.query.map fieldName
  let qnames := if skip then
      qnames.filter (fun n => !(n = "room_id" || n = "client_id"))
    else qnames
  let unames := extract_url_params c.endpoint
  let unames := if skip then
      unames.filter (fun n => !(n = "room_id" || n = "client_id"))
    else unames
  String.intercalate ", " ((qnames ++ unames).map (fun n => n ++ "=" ++ n))

def ws_contains_room_client (c : WsCellData) : Bool × Bool :=
  let params := c.query.map fieldName ++ extract_url_params c.endpoint
  (params.contains "room_id", params.contains "client_id")

def ws_handle_exception : List String :=
  ["    except Exception as e:",
   "        await manager.handle_error(websocket, e)"]

def ws_room_client_inits (c : WsCellData) : List String :=
  (if !(ws_contains_room_client c).1 then ["    room_id = None"] else []) ++
  (if !(ws_contains_room_client c).2 then ["    client_id = str(uuid.uuid4())"]
   else [])

def ws_event_code (c : WsCellData) (fn : String) (isAsync : Bool) :
    List String :=
  ws_room_client_inits c ++
  ["    await manager.connect(websocket, room_id, client_id)",
   "    try:",
   "        while True:",
   "            event_data = await websocket.receive_text()",
   "            response = " ++ (if isAsync then "await " else "") ++ fn ++
     "(event_data, " ++ ws_invocation_params c false ++ ")",
   "            if response is not None:",
   "                await manager.parse_and_send_message(response)"] ++
  ws_handle_exception

def ws_stream_wrapper_no_input : List String :=
  ["    async def _streaming_wrapper(websocket: WebSocket, udf: Callable[[], Any]) -> AsyncGenerator[str, None]:",
   "        while True:",
   "            async for data in udf():",
   "                yield data",
   "            "]

def ws_stream_code_no_message (c : WsCellData) (fn : String) : List String :=
  ws_stream_wrapper_no_input ++
  ws_room_client_inits c ++
  ["    await manager.connect(websocket, room_id, client_id)",
   "    try:",
   "        async for response in _streaming_wrapper(websocket, lambda: " ++
     fn ++ "(" ++ ws_invocation_params c false ++ ")):",
   "            if response is not None:",
   "                await manager.parse_and_send_message(response)"] ++
  ws_handle_exception

def ws_stream_wrapper (c : WsCellData) (additionalParams : String) :
    List String :=
  let sigFields := (pySplitOnSub ", ".data additionalParams.data).map String.mk
  let signatureAddon := sigFields.foldl (fun acc field =>
    let fName := eqFieldName field
    if fName ≠ "" && fName ≠ "client_id" && fName ≠ "room_id" then
      acc ++ ", " ++ fName ++ ": Any = None"
    else acc) ""
  ["    async def _streaming_wrapper(websocket: WebSocket, client_id: str, room_id: str, udf: Callable[[str], Any]" ++
     signatureAddon ++ ") -> AsyncGenerator[str, None]:",
   "        user_input = " ++
     (if c.validate then "\x7b\x7d" else sq ++ sq) ++ "  # default value",
   "    ",
   "        while True:",
   "            try:",
   "                new_input = await asyncio.wait_for(websocket.receive_text(), timeout=1.0)",
   "                user_input = new_input",
   "            except asyncio.TimeoutError:",
   "                pass",
   "    ",
   "            async for data in udf(user_input" ++ additionalParams ++
     "):",
   "                yield data",
   "            "]

def ws_schema_validation_code : List String :=
  ["                parsed_data = MessageSchema.parse_raw(new_input)",
   "                user_input = parsed_data.dict()",
   "            except ValidationError as e:",
   "                await manager.send_message(json.dumps(\x7b" ++ sq ++
     "error" ++ sq ++ ": str(e)\x7d), room_id, client_id)",
   "                continue"]

def ws_stream_code_with_message (c : WsCellData) (fn : String) :
    List String :=
  let invocationParams := ws_invocation_params c false
  let invocationParams :=
    if invocationParams ≠ "" then ", " ++ invocationParams else invocationParams
  let code := ws_stream_wrapper c invocationParams
  let code := code ++ ws_room_client_inits c
  let code := code ++ ["    await manager.connect(websocket, room_id, client_id)"]
  let code :=
    if c.validate then
      match code.findIdx? (fun line =>
          pyStrip line.data = "user_input = new_input".data) with
      | some idx => code.take idx ++ ws_schema_validation_code ++
          code.drop (idx + 1)
      | none => code
    else code
  let wrapperParams := ws_invocation_params c true
  let wrapperParams :=
    if wrapperParams ≠ "" then ", " ++ wrapperParams else wrapperParams
  code ++
  ["    try:",
   "        async for response in _streaming_wrapper(websocket, client_id=client_id, room_id=room_id, udf=" ++
     fn ++ wrapperParams ++ "):",
   "            if response is not None:",
   "                await manager.parse_and_send_message(response)"] ++
  ws_handle_exception

/-- `_generate_code` (lines 116-126): dispatch on `ws_type`; an unsupported
type raises `ValueError`. -/
def ws_generate_code (cap : AstCap) (c : WsCellData) (fn : String) :
    Except String (List String) :=
  if c.wsType = "event" then do
    let isAsync ← cap.isAsync c.funcBody
    pure (ws_event_code c fn isAsync)
  else if c.wsType = "stream" && c.messageSchema.isEmpty then
    pure (ws_stream_code_no_message c fn)
  else if c.wsType = "stream" && !c.messageSchema.isEmpty then
    pure (ws_stream_code_with_message c fn)
  else
    .error ("Unsupported ws_type: " ++ c.wsType)

/-- `_generate_pydantic_model`: `none` models the `ValueError` a malformed
field raises out of `_field_to_py_str`. -/
def generate_pydantic_model (fields : List String) (className : String) :
    Option String := do
  let lines ← fields.mapM (fun f => (field_to_py_str f.data).map
    (fun r => String.mk r.1))
  pure ("class " ++ className ++ "(BaseModel):\n" ++
    String.intercalate "\n" lines)

/-- `WebSocketCell.__str__` (lines 309-328). -/
def renderWs (cap : AstCap) (c : WsCellData) : Except String String := do
  let funcName? ← cap.funcName c.funcBody
  let fn := pyStrOfName funcName?
  let endpointDef := ["@router.websocket(" ++ sq ++ c.endpoint ++ sq ++ ")"]
  let endpointDef ←
    if !c.messageSchema.isEmpty && c.validate then
      match generate_pydantic_model c.messageSchema "MessageSchema" with
      | some model => pure (model :: endpointDef)
      | none => .error "ValueError: too many values to unpack"
    else pure endpointDef
  let endpointDef := endpointDef ++ [ws_endpoint_signature c fn]
  let code ← ws_generate_code cap c fn
  let endpointDef := endpointDef ++ code ++ [c.funcBody]
  pure (String.intercalate "\n" endpointDef)

/-!
## HTTP Cell Generator (http_cell.py lines 73-134)
-/

/-- `_generate_func_body_params`. -/
def http_func_body_params (c : HttpCellData) : String :=
  let bodyParams := c.body.map (fun f => fieldName f ++ "=body." ++ fieldName f)
  let queryParams := c.query.map (fun f => fieldName f ++ "=" ++ fieldName f)
  let urlParams := (extract_url_params c.endpoint).map (fun n => n ++ "=" ++ n)
  String.intercalate ", " (bodyParams ++ queryParams ++ urlParams)

/-- `HttpCell.__str__` (lines 97-134). -/
def renderHttp (cap : AstCap) (c : HttpCellData) : Except String String :=
  if c.http = "" || c.endpoint = "" then
    pure "# Missing HTTP method or endpoint."
  else do
    let funcName? ← cap.funcName c.funcBody
    let pascal? : Option String :=
      if pyTruthyStr funcName? then some (snake_to_pascal (funcName?.getD ""))
      else none
    let mn0 := match pascal? with
      | some p => p ++ "RequestBody"
      | none => "RequestBody"
    let mn1 := match pascal? with
      | some p => p ++ "ResponseModel"
      | none => "ResponseModel"
    let endpointDef : List String := []
    let endpointDef ←
      if c.body.isEmpty then pure endpointDef
      else match generate_pydantic_model c.body mn0 with
        | some m => pure (endpointDef ++ [m ++ "\n"])
        | none => .error "ValueError: too many values to unpack"
    let endpointDef ←
      if c.resp.isEmpty then pure endpointDef
      else match generate_pydantic_model c.resp mn1 with
        | some m => pure (endpointDef ++ [m ++ "\n"])
        | none => .error "ValueError: too many values to unpack"
    let endpointDef := endpointDef ++
      ["@router." ++ pyLower c.http ++ "(" ++ sq ++ c.endpoint ++ sq ++ ")"]
    let urlParams := extract_url_params c.endpoint
    let funcParams := urlParams.map (fun n => n ++ ": str")
    let funcParams :=
      if !c.body.isEmpty then funcParams ++ ["body: " ++ mn0] else funcParams
    let queryPairs ← c.query.mapM (fun q =>
      match splitChar ':' q.data with
      | [n, t] => Except.ok (String.mk n, String.mk t)
      | _ => Except.error "ValueError: unpack")
    let funcParams :=
      if !c.query.isEmpty then
        funcParams ++ queryPairs.map (fun p => p.1 ++ ": " ++ p.2)
      else funcParams
    let isAsync ← cap.isAsync c.funcBody
    let fn := pyStrOfName funcName?
    let endpointDef := endpointDef ++
      ["async def " ++ fn ++ "_endpoint(" ++
        String.intercalate ", " funcParams ++ "):"]
    let endpointDef := endpointDef ++
      ["    try:",
       "        return " ++ (if isAsync then "await " else "") ++ fn ++ "(" ++
         http_func_body_params c ++ ")",
       "    except Exception as e:",
       "        if hasattr(e, " ++ sq ++ "status_code" ++ sq ++
         ") and hasattr(e, " ++ sq ++ "message" ++ sq ++ "):",
       "            raise HTTPException(status_code=e.status_code, detail=f" ++
         sq ++ "\x7be.message\x7d" ++ sq ++ ")",
       "        else:",
       "            raise HTTPException(status_code=500, detail=f" ++ sq ++
         "Internal Server Error: \x7bstr(e)\x7d" ++ sq ++ ")"]
    let endpointDef := endpointDef ++ [c.funcBody]
    pure (String.intercalate "\n" endpointDef)

/-!
## Scheduled Cell Generator (scheduled_cell.py lines 15-52)

`ScheduledCell.__str__` reads the class-level counter; the counter is
threaded explicitly.  The `cron_dict` built from `cron.split(' ')` is the
`CronDict` structure; indexing `cron_fields[0..5]` raises `IndexError`
(the `except` branch) when fewer than six fields exist, modelled by
`mkCronDict` returning `none`.
-/

structure CronDict where
  second : String
  minute : String
  hour : String
  day : String
  month : String
  day_of_week : String

/-- `cron_fields[i]` for `i = 0..5`: positional mapping of the six
space-separated cron fields, `none` on `IndexError`. -/
def mkCronDict : List String → Option CronDict
  | f0 :: f1 :: f2 :: f3 :: f4 :: f5 :: _ =>
    some ⟨f0, f1, f2, f3, f4, f5⟩
  | _ => none

/-- Python `str(cron_dict)` for the insertion-ordered six-key dict of
strings. -/
def pyCronDictRepr (cd : CronDict) : String :=
  "\x7b" ++ sq ++ "second" ++ sq ++ ": " ++ sq ++ cd.second ++ sq ++ ", " ++
  sq ++ "minute" ++ sq ++ ": " ++ sq ++ cd.minute ++ sq ++ ", " ++
  sq ++ "hour" ++ sq ++ ": " ++ sq ++ cd.hour ++ sq ++ ", " ++
  sq ++ "day" ++ sq ++ ": " ++ sq ++ cd.day ++ sq ++ ", " ++
  sq ++ "month" ++ sq ++ ": " ++ sq ++ cd.month ++ sq ++ ", " ++
  sq ++ "day_of_week" ++ sq ++ ": " ++ sq ++ cd.day_of_week ++ sq ++ "\x7d"

/-- `ScheduledCell.__str__` given the introspected function name and the
class counter.  Returns the rendered text, the new counter, and whether a
warning was printed; `none` models the uncaught `ValueError`/`IndexError`
that `_parse_interval` raises on malformed interval text. -/
def scheduledRender (funcName? : Option String) (counter : Nat)
    (cron interval : Option String) (funcBody : String) :
    Option (String × Nat × Bool) :=
  let fn := match funcName? with
    | some n => n
    | none => "generated_func_" ++ toString counter
  let counter' := if funcName?.isSome then counter else counter + 1
  let tail :=
    (if !funcName?.isSome then ["async def scheduled_" ++ fn ++ "():"]
     else []) ++
    ["    " ++ pyReplace funcBody "\n" "\n    "]
  if pyTruthyStr cron then
    match mkCronDict ((splitChar ' ' ((cron.getD "").data)).map String.mk) with
    | some cd =>
      some (String.intercalate "\n"
        (("@scheduler.scheduled_job(" ++ sq ++ "cron" ++ sq ++ ", id=" ++ sq ++
          fn ++ "_cron" ++ sq ++ ", name=" ++ sq ++ fn ++ "_cron_job" ++ sq ++
          ", **" ++ pyCronDictRepr cd ++ ")") :: tail), counter', false)
    | none => some ("# Invalid cron format", counter', true)
  else if pyTruthyStr interval then
    match parse_interval ((interval.getD "").data) with
    | none => none
    | some (secs, warn) =>
      some (String.intercalate "\n"
        (("@scheduler.scheduled_job(" ++ sq ++ "interval" ++ sq ++ ", id=" ++
          sq ++ fn ++ "_interval" ++ sq ++ ", name=" ++ sq ++ fn ++
          "_interval_job" ++ sq ++ ", seconds=" ++ toString secs ++ ")") ::
          tail), counter', warn)
  else
    some (String.intercalate "\n" tail, counter', false)

/-!
## Notebook rendering (parser/parser.py lines 235-245)

`parse_notebook_cells` sorts the parsed cells and renders each with `str`;
an exception raised while rendering any cell propagates out of the list
comprehension and aborts the whole notebook (and, in `copy_files`, the
whole build).  The scheduled-cell counter threads through the renderings in
order.
-/

def renderSched (cap : AstCap) (counter : Nat) (c : SchedCellData) :
    Except String (String × Nat) :=
  match cap.funcName c.funcBody with
  | .error e => .error e
  | .ok fn? =>
    match scheduledRender fn? counter c.cron c.interval c.funcBody with
    | some r => .ok (r.1, r.2.1)
    | none => .error "ValueError: invalid interval"

/-- `str(cell)` for one parsed cell. -/
def renderCell (cap : AstCap) (counter : Nat) : Cell → Except String (String × Nat)
  | .code s => .ok (s, counter)
  | .http c => (renderHttp cap c).map (fun s => (s, counter))
  | .ws c => (renderWs cap c).map (fun s => (s, counter))
  | .sched c => renderSched cap counter c

/-- `[str(cell) for cell in sorted_cells]` with the exception semantics of
a list comprehension: the first raising cell aborts the whole list. -/
def renderCells (cap : AstCap) : Nat → List Cell → Except String (List String × Nat)
  | counter, [] => .ok ([], counter)
  | counter, c :: cs =>
    match renderCell cap counter c with
    | .error e => .error e
    | .ok r =>
      match renderCells cap r.2 cs with
      | .error e => .error e
      | .ok rest => .ok (r.1 :: rest.1, rest.2)

def parse_notebook_cells (cap : AstCap) (counter : Nat) (cells : List Cell) :
    Except String (List String × Nat) :=
  renderCells cap counter (sortCells cells)

/-- Whether a computation completed without raising. -/
def exceptOk {e a : Type} : Except e a → Bool
  | .ok _ => true
  | .error _ => false

/-! ## Theorems -/

theorem joinSegs_cons_cons (c : Char) (A : List Char) (rest : List (List Char)) :
    joinSegs ((c :: A) :: rest) = c :: joinSegs (A :: rest) := by
  cases rest <;> simp [joinSegs]

theorem splitTopSpec_comma0 (cs : List Char) :
    splitTopSpec (',' :: cs) 0 =
      ([], (splitTopSpec cs 0).1 :: (splitTopSpec cs 0).2) := by
  simp [splitTopSpec]

theorem splitTopSpec_cons (c : Char) (cs : List Char) (d : Nat)
    (h : ¬(c = ',' ∧ d = 0)) :
    splitTopSpec (c :: cs) d =
      (c :: (splitTopSpec cs (bracketStep c d)).1,
        (splitTopSpec cs (bracketStep c d)).2) := by
  have hcond : (decide (c = ',') && d == 0) = false := by
    by_cases hc : c = ','
    · by_cases hd : d = 0
      · exact absurd ⟨hc, hd⟩ h
      · simp [hd]
    · simp [hc]
  simp [splitTopSpec, hcond]

/-- Rejoining the reference split with commas restores the input string. -/
theorem joinSegs_splitTopSpec (cs : List Char) :
    ∀ d, joinSegs ((splitTopSpec cs d).1 :: (splitTopSpec cs d).2) = cs := by
  induction cs with
  | nil => intro d; simp [splitTopSpec, joinSegs]
  | cons c cs ih =>
    intro d
    by_cases h : c = ',' ∧ d = 0
    · obtain ⟨hc, hd⟩ := h
      subst hc; subst hd
      rw [splitTopSpec_comma0]
      show joinSegs ([] :: (splitTopSpec cs 0).1 :: (splitTopSpec cs 0).2) = ',' :: cs
      have : joinSegs ([] :: (splitTopSpec cs 0).1 :: (splitTopSpec cs 0).2) =
          ',' :: joinSegs ((splitTopSpec cs 0).1 :: (splitTopSpec cs 0).2) := rfl
      rw [this, ih 0]
    · rw [splitTopSpec_cons c cs d h, joinSegs_cons_cons, ih]

/-- Every piece of the reference split is bracket-balanced and free of
top-level commas; the first piece is scanned from the starting depth `d`,
the later pieces from depth zero. -/
theorem splitTopSpec_segments_ok (cs : List Char) : ∀ d, scanBalanced cs d = true →
    (scanBalanced (splitTopSpec cs d).1 d = true ∧
      noTopComma (splitTopSpec cs d).1 d = true) ∧
    ∀ seg ∈ (splitTopSpec cs d).2,
      scanBalanced seg 0 = true ∧ noTopComma seg 0 = true := by
  induction cs with
  | nil =>
    intro d h
    simp only [scanBalanced] at h
    simp [splitTopSpec, scanBalanced, noTopComma, h]
  | cons c cs ih =>
    intro d h
    by_cases hsplit : c = ',' ∧ d = 0
    · obtain ⟨hc, hd⟩ := hsplit
      subst hc; subst hd
      rw [splitTopSpec_comma0]
      have h' : scanBalanced cs 0 = true := by
        simpa [scanBalanced, isOpenBracket, isCloseBracket] using h
      have hih := ih 0 h'
      refine ⟨⟨by simp [scanBalanced], by simp [noTopComma]⟩, ?_⟩
      intro seg hseg
      rcases List.mem_cons.mp hseg with hseg | hseg
      · subst hseg; exact ⟨hih.1.1, hih.1.2⟩
      · exact hih.2 seg hseg
    · rw [splitTopSpec_cons c cs d hsplit]
      by_cases ho : isOpenBracket c = true
      · have h' : scanBalanced cs (d + 1) = true := by simpa [scanBalanced, ho] using h
        have hb : bracketStep c d = d + 1 := by simp [bracketStep, ho]
        rw [hb]
        have hih := ih (d + 1) h'
        refine ⟨⟨?_, ?_⟩, hih.2⟩
        · simpa [scanBalanced, ho] using hih.1.1
        · simpa [noTopComma, ho] using hih.1.2
      · by_cases hcl : isCloseBracket c = true
        · have hd0 : (d != 0) = true ∧ scanBalanced cs (d - 1) = true := by
            simpa [scanBalanced, ho, hcl, Bool.and_eq_true] using h
          have hb : bracketStep c d = d - 1 := by simp [bracketStep, ho, hcl]
          rw [hb]
          have hih := ih (d - 1) hd0.2
          refine ⟨⟨?_, ?_⟩, hih.2⟩
          · simp [scanBalanced, ho, hcl, hd0.1, hih.1.1]
          · simpa [noTopComma, ho, hcl] using hih.1.2
        · have h' : scanBalanced cs d = true := by simpa [scanBalanced, ho, hcl] using h
          have hb : bracketStep c d = d := by simp [bracketStep, ho, hcl]
          rw [hb]
          have hih := ih d h'
          have hcomma : (decide (c = ',') && d == 0) = false := by
            by_cases hc : c = ','
            · have hd : d ≠ 0 := fun hd => hsplit ⟨hc, hd⟩
              simp [hd]
            · simp [hc]
          refine ⟨⟨?_, ?_⟩, hih.2⟩
          · simpa [scanBalanced, ho, hcl] using hih.1.1
          · simp [noTopComma, ho, hcl, hcomma, hih.1.2]

/-- The `split_types` loop computes the reference split (stripping each
segment) whenever the remaining input is bracket-balanced relative to the
current stack. -/
theorem splitTypesGo_eq_spec (cs : List Char) : ∀ (stack cur : List Char),
    scanBalanced cs stack.length = true →
    splitTypesGo cs stack cur =
      some (pyStrip (cur.reverse ++ (splitTopSpec cs stack.length).1)
            :: ((splitTopSpec cs stack.length).2).map pyStrip) := by
  induction cs with
  | nil =>
    intro stack cur h
    simp [splitTypesGo, splitTopSpec]
  | cons c cs ih =>
    intro stack cur h
    by_cases hc : c = ','
    · subst hc
      have ho : isOpenBracket ',' = false := rfl
      have hcl : isCloseBracket ',' = false := rfl
      simp only [scanBalanced, ho, hcl, Bool.false_eq_true, if_false] at h
      cases stack with
      | nil =>
        have hrec := ih [] [] (by simpa using h)
        simp only [List.length_nil] at hrec
        rw [show splitTypesGo (',' :: cs) [] cur =
          (splitTypesGo cs [] []).map (fun r => pyStrip cur.reverse :: r) from rfl]
        rw [hrec]
        simp only [List.length_nil, splitTopSpec_comma0, Option.map_some]
        simp
      | cons s st =>
        have hrec := ih (s :: st) (',' :: cur) (by simpa using h)
        rw [show splitTypesGo (',' :: cs) (s :: st) cur =
          splitTypesGo cs (s :: st) (',' :: cur) from rfl]
        rw [hrec]
        rw [splitTopSpec_cons ',' cs (s :: st).length (by simp)]
        have hb : bracketStep ',' (s :: st).length = (s :: st).length := rfl
        rw [hb]
        simp [List.append_assoc]
    · by_cases ho : isOpenBracket c = true
      · simp only [scanBalanced, ho, if_true] at h
        have hrec := ih (c :: stack) (c :: cur) (by simpa using h)
        simp only [List.length_cons] at hrec
        rw [show splitTypesGo (c :: cs) stack cur =
          splitTypesGo cs (c :: stack) (c :: cur) from by
            simp [splitTypesGo, ho]]
        rw [hrec]
        rw [splitTopSpec_cons c cs stack.length (fun hx => hc hx.1)]
        have hb : bracketStep c stack.length = stack.length + 1 := by
          simp [bracketStep, ho]
        rw [hb]
        simp [List.append_assoc]
      · by_cases hcl : isCloseBracket c = true
        · simp only [scanBalanced, ho, hcl, Bool.false_eq_true, if_false, if_true,
            Bool.and_eq_true, bne_iff_ne, ne_eq] at h
          cases stack with
          | nil => simp at h
          | cons s st =>
            have hrec := ih st (c :: cur) (by simpa using h.2)
            rw [show splitTypesGo (c :: cs) (s :: st) cur =
              splitTypesGo cs st (c :: cur) from by
                simp [splitTypesGo, ho, hcl]]
            rw [hrec]
            rw [splitTopSpec_cons c cs (s :: st).length (fun hx => hc hx.1)]
            have hb : bracketStep c (s :: st).length = st.length := by
              simp [bracketStep, ho, hcl]
            rw [hb]
            simp [List.append_assoc]
        · simp only [scanBalanced, ho, hcl, Bool.false_eq_true, if_false] at h
          have hrec := ih stack (c :: cur) h
          rw [show splitTypesGo (c :: cs) stack cur =
            splitTypesGo cs stack (c :: cur) from by
              simp [splitTypesGo, ho, hcl, hc]]
          rw [hrec]
          rw [splitTopSpec_cons c cs stack.length (fun hx => hc hx.1)]
          have hb : bracketStep c stack.length = stack.length := by
            simp [bracketStep, ho, hcl]
          rw [hb]
          simp [List.append_assoc]

/-- C1: for every input string with balanced brackets/braces, `split_types`
returns exactly the comma-separated top-level segments, each stripped of
surrounding whitespace: the unstripped segments rejoin with commas to the
original string, each segment is itself balanced, and no segment retains a
top-level comma (so the split never cuts inside a bracketed or braced span,
and cuts at every top-level comma). -/
theorem split_types_top_level_split (s : List Char)
    (h : scanBalanced s 0 = true) :
    ∃ segs : List (List Char),
      split_types s = some (segs.map pyStrip) ∧
      joinSegs segs = s ∧
      ∀ seg ∈ segs, scanBalanced seg 0 = true ∧ noTopComma seg 0 = true := by
  refine ⟨(splitTopSpec s 0).1 :: (splitTopSpec s 0).2, ?_, ?_, ?_⟩
  · have := splitTypesGo_eq_spec s [] [] (by simpa using h)
    simpa [split_types] using this
  · exact joinSegs_splitTopSpec s 0
  · intro seg hseg
    have hok := splitTopSpec_segments_ok s 0 h
    rcases List.mem_cons.mp hseg with hseg | hseg
    · subst hseg; exact ⟨hok.1.1, hok.1.2⟩
    · exact hok.2 seg hseg

/-- Witness for C1 at the spec's own example: the input is balanced, and the
instantiated theorem applies, with the concrete segments checked by `decide`. -/
theorem split_types_top_level_split_witness :
    scanBalanced "a: list[int, str], b: dict[str, int]".data 0 = true ∧
    (∃ segs : List (List Char),
      split_types "a: list[int, str], b: dict[str, int]".data =
        some (segs.map pyStrip) ∧
      joinSegs segs = "a: list[int, str], b: dict[str, int]".data ∧
      ∀ seg ∈ segs, scanBalanced seg 0 = true ∧ noTopComma seg 0 = true) :=
  ⟨by decide, split_types_top_level_split _ (by decide)⟩


theorem splitChar_ne_nil (sep : Char) (l : List Char) : splitChar sep l ≠ [] := by
  cases l with
  | nil => simp [splitChar]
  | cons c cs =>
    simp only [splitChar]
    cases h : splitChar sep cs with
    | nil => simp
    | cons r rs =>
      by_cases hc : c = sep <;> simp [hc]

theorem splitChar_of_not_mem (sep : Char) (l : List Char) (h : sep ∉ l) :
    splitChar sep l = [l] := by
  induction l with
  | nil => rfl
  | cons c cs ih =>
    have hc : c ≠ sep := fun hx => h (hx ▸ List.mem_cons_self c cs)
    have hcs : sep ∉ cs := fun hx => h (List.mem_cons_of_mem c hx)
    simp [splitChar, ih hcs, hc]

theorem splitChar_append_sep (sep : Char) (a b : List Char) (h : sep ∉ a) :
    splitChar sep (a ++ sep :: b) = a :: splitChar sep b := by
  induction a with
  | nil =>
    simp only [List.nil_append, splitChar]
    cases hb : splitChar sep b with
    | nil => exact absurd hb (splitChar_ne_nil sep b)
    | cons r rs => simp
  | cons c a' ih =>
    have hc : c ≠ sep := fun hx => h (hx ▸ List.mem_cons_self c a')
    have ha' : sep ∉ a' := fun hx => h (List.mem_cons_of_mem c hx)
    simp only [List.cons_append, splitChar, List.append_eq]
    rw [ih ha']
    simp [hc]

theorem removeAllChar_of_not_mem (x : Char) (l : List Char) (h : x ∉ l) :
    removeAllChar x l = l := by
  unfold removeAllChar
  apply List.filter_eq_self.mpr
  intro a ha
  simp only [ne_eq, decide_eq_true_eq]
  exact fun hax => h (hax ▸ ha)

theorem removeAllChar_append (x : Char) (a b : List Char) :
    removeAllChar x (a ++ b) = removeAllChar x a ++ removeAllChar x b := by
  simp [removeAllChar, List.filter_append]

theorem pyStrip_cons_space (l : List Char) : pyStrip (' ' :: l) = pyStrip l := by
  simp [pyStrip, List.dropWhile, pyIsSpace]

theorem splitChar_field (name rest : List Char) (hn : ':' ∉ name)
    (hr : ':' ∉ rest) : splitChar ':' (name ++ ':' :: rest) = [name, rest] := by
  rw [splitChar_append_sep ':' name rest hn, splitChar_of_not_mem ':' rest hr]

/-- C3: a `name: type?` field renders as an optional (`Union[type, None]`)
field with the `?` marker stripped; `name: type!` renders as a required
field of the bare type with the `!` stripped; a field with no `:` type
specifier renders with type `Any` and only a warning (a `some` result,
never an error). -/
theorem field_to_py_str_markers (name ty : List Char)
    (hn : ':' ∉ name) (ht : ':' ∉ ty) (hq : '?' ∉ ty) (hb : '!' ∉ ty) :
    field_to_py_str (name ++ ':' :: (' ' :: (ty ++ ['?']))) =
      some ("    ".data ++ pyStrip name ++ ": ".data ++
        ("Union[".data ++ pyStrip ty ++ ", None]".data), false) ∧
    field_to_py_str (name ++ ':' :: (' ' :: (ty ++ ['!']))) =
      some ("    ".data ++ pyStrip name ++ ": ".data ++ pyStrip ty, false) ∧
    ∀ f : List Char, ':' ∉ f →
      field_to_py_str f = some ("    ".data ++ pyStrip f ++ ": Any".data, true) := by
  refine ⟨?_, ?_, ?_⟩
  · have htail : ':' ∉ (' ' :: (ty ++ ['?']) : List Char) := by
      intro hx
      rcases List.mem_cons.mp hx with hx | hx
      · exact absurd hx.symm (by decide)
      · rcases List.mem_append.mp hx with hx | hx
        · exact ht hx
        · simp at hx
    have hmem : ':' ∈ name ++ ':' :: (' ' :: (ty ++ ['?'])) := by simp
    have hsplit := splitChar_field name (' ' :: (ty ++ ['?'])) hn htail
    have hopt : ('?' ∈ (' ' :: (ty ++ ['?']) : List Char)) := by simp
    have hclean : removeAllChar '!' (removeAllChar '?' (' ' :: (ty ++ ['?']))) =
        ' ' :: ty := by
      have h1 : removeAllChar '?' (' ' :: (ty ++ ['?'])) = ' ' :: ty := by
        rw [show (' ' :: (ty ++ ['?']) : List Char) = [' '] ++ ty ++ ['?'] by simp]
        rw [removeAllChar_append, removeAllChar_append,
          removeAllChar_of_not_mem '?' ty hq]
        rw [show removeAllChar '?' [' '] = [' '] by decide,
          show removeAllChar '?' ['?'] = [] by decide]
        simp
      rw [h1]
      refine removeAllChar_of_not_mem '!' _ ?_
      intro hx
      rcases List.mem_cons.mp hx with hx | hx
      · exact absurd hx.symm (by decide)
      · exact hb hx
    simp only [field_to_py_str, if_pos hmem, hsplit, hclean, if_pos hopt,
      pyStrip_cons_space]
  · have htail : ':' ∉ (' ' :: (ty ++ ['!']) : List Char) := by
      intro hx
      rcases List.mem_cons.mp hx with hx | hx
      · exact absurd hx.symm (by decide)
      · rcases List.mem_append.mp hx with hx | hx
        · exact ht hx
        · simp at hx
    have hmem : ':' ∈ name ++ ':' :: (' ' :: (ty ++ ['!'])) := by simp
    have hsplit := splitChar_field name (' ' :: (ty ++ ['!'])) hn htail
    have hopt : ('?' ∉ (' ' :: (ty ++ ['!']) : List Char)) := by
      intro hx
      rcases List.mem_cons.mp hx with hx | hx
      · exact absurd hx.symm (by decide)
      · rcases List.mem_append.mp hx with hx | hx
        · exact hq hx
        · simp at hx
    have hclean : removeAllChar '!' (removeAllChar '?' (' ' :: (ty ++ ['!']))) =
        ' ' :: ty := by
      rw [removeAllChar_of_not_mem '?' _ hopt]
      rw [show (' ' :: (ty ++ ['!']) : List Char) = [' '] ++ ty ++ ['!'] by simp]
      rw [removeAllChar_append, removeAllChar_append,
        removeAllChar_of_not_mem '!' ty hb]
      rw [show removeAllChar '!' [' '] = [' '] by decide,
        show removeAllChar '!' ['!'] = [] by decide]
      simp
    simp only [field_to_py_str, if_pos hmem, hsplit, hclean, if_neg hopt,
      pyStrip_cons_space]
  · intro f hf
    simp [field_to_py_str, hf]

/-- Witness for C3 at `age: int?`, `age: int!` and bare `age`. -/
theorem field_to_py_str_markers_witness :
    field_to_py_str "age: int?".data =
      some ("    age: Union[int, None]".data, false) ∧
    field_to_py_str "age: int!".data =
      some ("    age: int".data, false) ∧
    field_to_py_str "age".data =
      some ("    age: Any".data, true) := by
  have h := field_to_py_str_markers "age".data "int".data
    (by decide) (by decide) (by decide) (by decide)
  refine ⟨?_, ?_, ?_⟩
  · have := h.1
    rw [show ("age".data ++ ':' :: (' ' :: ("int".data ++ ['?']))) =
      "age: int?".data by decide] at this
    rw [this]; decide
  · have := h.2.1
    rw [show ("age".data ++ ':' :: (' ' :: ("int".data ++ ['!']))) =
      "age: int!".data by decide] at this
    rw [this]; decide
  · have := h.2.2 "age".data (by decide)
    rw [this]; decide

/-- C6: for an interval string `<digits><unit>`, the value is converted to
seconds with factor 1 for `s`, 60 for `m`, 3600 for `h`; any other trailing
unit character leaves the leading numeral interpreted as seconds and sets
the warning flag. -/
theorem parse_interval_units (ds : List Char) (u : Char)
    (hne : ds ≠ []) (hdig : ds.all Char.isDigit = true) :
    parse_interval (ds ++ [u]) =
      some (if u = 's' then digitsToNat ds
            else if u = 'm' then digitsToNat ds * 60
            else if u = 'h' then digitsToNat ds * 3600
            else digitsToNat ds,
        !(u = 's' || u = 'm' || u = 'h')) := by
  have hlast : (ds ++ [u]).getLast? = some u := by
    simp [List.getLast?_append]
  have hdrop : (ds ++ [u]).dropLast = ds := by
    simp
  have hint : pyInt ds = some (digitsToNat ds) := by
    simp [pyInt, hne, hdig]
  rw [parse_interval, hlast, hdrop, hint]
  by_cases hs : u = 's'
  · simp [hs]
  · by_cases hm : u = 'm'
    · simp [hm]
    · by_cases hh : u = 'h'
      · simp [hh]
      · simp [hs, hm, hh]

/-- Witness for C6: `"5m"` normalizes to 300 seconds. -/
theorem parse_interval_units_witness :
    parse_interval "5m".data = some (300, false) := by
  have h := parse_interval_units ['5'] 'm' (by decide) (by decide)
  rw [show "5m".data = ['5'] ++ ['m'] by decide, h]
  decide

theorem dictGet_dictSet_self {α : Type} (m : List (String × α)) (k : String)
    (v : α) : dictGet (dictSet m k v) k = some v := by
  induction m with
  | nil => simp [dictGet, dictSet, List.find?]
  | cons p rest ih =>
    obtain ⟨k1, v1⟩ := p
    by_cases h : k1 = k
    · simp [dictSet, h, dictGet, List.find?]
    · simp only [dictSet, h, if_false]
      simpa [dictGet, List.find?, h] using ih

theorem dictGet_dictSet_ne {α : Type} (m : List (String × α)) (k k' : String)
    (v : α) (h : k' ≠ k) : dictGet (dictSet m k v) k' = dictGet m k' := by
  have h' : k ≠ k' := fun hx => h hx.symm
  induction m with
  | nil => simp [dictGet, dictSet, List.find?, h']
  | cons p rest ih =>
    obtain ⟨k1, v1⟩ := p
    by_cases h1 : k1 = k
    · subst h1
      simp [dictSet, dictGet, List.find?, h']
    · simp only [dictSet, h1, if_false]
      by_cases h2 : k1 = k'
      · simp [dictGet, List.find?, h2]
      · simpa [dictGet, List.find?, h2] using ih

theorem dictGet_eq_none_of_not_mem {α : Type} (m : List (String × α))
    (k : String) (h : k ∉ m.map (·.1)) : dictGet m k = none := by
  induction m with
  | nil => rfl
  | cons p rest ih =>
    obtain ⟨k1, v1⟩ := p
    simp only [List.map_cons, List.mem_cons] at h
    push_neg at h
    have h1 : k1 ≠ k := fun hx => h.1 hx.symm
    simpa [dictGet, List.find?, h1] using ih h.2

theorem dictGet_dictPop_self {α : Type} (m : List (String × α)) (k : String)
    (hnd : (m.map (·.1)).Nodup) : dictGet (dictPop m k) k = none := by
  induction m with
  | nil => rfl
  | cons p rest ih =>
    obtain ⟨k1, v1⟩ := p
    simp only [List.map_cons, List.nodup_cons] at hnd
    by_cases h : k1 = k
    · subst h
      simp only [dictPop, if_pos rfl]
      exact dictGet_eq_none_of_not_mem rest k1 hnd.1
    · simp only [dictPop, h, if_false]
      simpa [dictGet, List.find?, h] using ih hnd.2

theorem dictGet_dictPop_ne {α : Type} (m : List (String × α)) (k a : String)
    (h : a ≠ k) : dictGet (dictPop m k) a = dictGet m a := by
  have h' : k ≠ a := fun hx => h hx.symm
  induction m with
  | nil => rfl
  | cons p rest ih =>
    obtain ⟨k1, v1⟩ := p
    by_cases h1 : k1 = k
    · subst h1
      simp [dictPop, dictGet, List.find?, h']
    · by_cases h2 : k1 = a
      · simp [dictPop, h1, dictGet, List.find?, h2, h]
      · simpa [dictPop, h1, dictGet, List.find?, h2] using ih

theorem mem_keys_dictSet {α : Type} (m : List (String × α)) (k a : String)
    (v : α) : a ∈ (dictSet m k v).map (·.1) → a ∈ m.map (·.1) ∨ a = k := by
  induction m with
  | nil =>
    intro ha
    simp only [dictSet, List.map_cons, List.map_nil, List.mem_singleton] at ha
    exact Or.inr ha
  | cons p rest ih =>
    obtain ⟨k1, v1⟩ := p
    intro ha
    by_cases h : k1 = k
    · subst h
      have e : dictSet ((k1, v1) :: rest) k1 v = (k1, v) :: rest := by
        simp [dictSet]
      rw [e] at ha
      simp only [List.map_cons, List.mem_cons] at ha
      rcases ha with ha | ha
      · exact Or.inr ha
      · exact Or.inl (by simp only [List.map_cons, List.mem_cons]; exact Or.inr ha)
    · simp only [dictSet, h, if_false, List.map_cons, List.mem_cons] at ha
      rcases ha with ha | ha
      · exact Or.inl (by simp only [List.map_cons, List.mem_cons]; exact Or.inl ha)
      · rcases ih ha with h2 | h2
        · exact Or.inl (by simp only [List.map_cons, List.mem_cons]; exact Or.inr h2)
        · exact Or.inr h2

theorem nodup_keys_dictSet {α : Type} (m : List (String × α)) (k : String)
    (v : α) (hnd : (m.map (·.1)).Nodup) :
    ((dictSet m k v).map (·.1)).Nodup := by
  induction m with
  | nil => simp [dictSet]
  | cons p rest ih =>
    obtain ⟨k1, v1⟩ := p
    simp only [List.map_cons, List.nodup_cons] at hnd
    by_cases h : k1 = k
    · subst h
      have e : dictSet ((k1, v1) :: rest) k1 v = (k1, v) :: rest := by
        simp [dictSet]
      rw [e]
      simp only [List.map_cons, List.nodup_cons]
      exact ⟨hnd.1, hnd.2⟩
    · simp only [dictSet, h, if_false, List.map_cons, List.nodup_cons]
      refine ⟨fun hx => ?_, ih hnd.2⟩
      rcases mem_keys_dictSet rest k k1 v hx with hx' | hx'
      · exact hnd.1 hx'
      · exact h hx'

theorem find?_val_dictSet {α : Type} (m : List (String × α)) (k : String)
    (w : α) [DecidableEq α] (hv : ∀ p ∈ m, p.2 ≠ w) :
    (dictSet m k w).find? (fun p => p.2 = w) = some (k, w) := by
  induction m with
  | nil => simp [dictSet, List.find?]
  | cons p rest ih =>
    obtain ⟨k1, v1⟩ := p
    by_cases h : k1 = k
    · simp [dictSet, h, List.find?]
    · have hv1 : v1 ≠ w := hv (k1, v1) (List.mem_cons_self _ _)
      have hd : (decide (v1 = w)) = false := by simpa using hv1
      simp only [dictSet, h, if_false, List.find?, hd]
      exact ih fun p hp => hv p (List.mem_cons_of_mem _ hp)

theorem mem_connOf_of_dictGet (st : Registry) (r : String) (m : RoomMap)
    (h : dictGet st r = some m) : ∀ p ∈ m, p.2 ∈ connOf st := by
  intro p hp
  simp only [dictGet, Option.map_eq_some'] at h
  obtain ⟨q, hq, hq2⟩ := h
  have hqmem : q ∈ st := List.mem_of_find?_eq_some hq
  simp only [connOf, List.mem_flatten]
  exact ⟨q.2.map (·.2), List.mem_map_of_mem _ hqmem, hq2 ▸ List.mem_map_of_mem _ hp⟩

theorem mem_maps_of_dictGet (st : Registry) (r : String) (m : RoomMap)
    (h : dictGet st r = some m) : m ∈ st.map (·.2) := by
  simp only [dictGet, Option.map_eq_some'] at h
  obtain ⟨q, hq, hq2⟩ := h
  exact hq2 ▸ List.mem_map_of_mem _ (List.mem_of_find?_eq_some hq)

/-- C4: for a connection not yet stored anywhere, `connect(c, room, client)`
followed by `disconnect(c, room)` removes the `(room, client)` entry and
only that entry, so a subsequent `send(msg, room, client)` delivers nothing
(and, being a total function, raises no error). -/
theorem connect_disconnect_send_noop (st : Registry) (ws : Nat)
    (room cl : String) (hwf : registryWF st) (hfresh : ws ∉ connOf st)
    (hcl : cl ≠ "") :
    dictGet ((dictGet (disconnect (connect st ws (some room) (some cl)) ws room)
        room).getD []) cl = none ∧
    (∀ r a : String, ¬(r = room ∧ a = cl) →
      dictGet ((dictGet (disconnect (connect st ws (some room) (some cl)) ws room)
          r).getD []) a =
        dictGet ((dictGet (connect st ws (some room) (some cl)) r).getD []) a) ∧
    (∀ msg : String,
      send_message (disconnect (connect st ws (some room) (some cl)) ws room)
        msg room (some cl) = []) := by
  have hmvals : ∀ p ∈ (dictGet st room).getD [], p.2 ≠ ws := by
    intro p hp hpe
    cases hdg : dictGet st room with
    | none => rw [hdg] at hp; simp at hp
    | some m0 =>
      rw [hdg] at hp
      exact hfresh (hpe ▸ mem_connOf_of_dictGet st room m0 hdg p hp)
  have hmnd : (((dictGet st room).getD []).map (·.1)).Nodup := by
    cases hdg : dictGet st room with
    | none => simp
    | some m0 =>
      simpa using hwf.2 m0 (mem_maps_of_dictGet st room m0 hdg)
  have hst1 : connect st ws (some room) (some cl) =
      dictSet st room (dictSet ((dictGet st room).getD []) cl ws) := rfl
  have hget1 : dictGet (dictSet st room
      (dictSet ((dictGet st room).getD []) cl ws)) room =
      some (dictSet ((dictGet st room).getD []) cl ws) :=
    dictGet_dictSet_self _ _ _
  have hfind : (dictSet ((dictGet st room).getD []) cl ws).find?
      (fun p => p.2 = ws) = some (cl, ws) :=
    find?_val_dictSet _ cl ws hmvals
  have hdisc : disconnect (dictSet st room
      (dictSet ((dictGet st room).getD []) cl ws)) ws room =
      dictSet (dictSet st room (dictSet ((dictGet st room).getD []) cl ws)) room
        (dictPop (dictSet ((dictGet st room).getD []) cl ws) cl) := by
    unfold disconnect
    simp only [hget1, hfind]
    rfl
  have hMnd : ((dictSet ((dictGet st room).getD []) cl ws).map (·.1)).Nodup :=
    nodup_keys_dictSet _ cl ws hmnd
  have hget2 : dictGet (dictSet (dictSet st room
      (dictSet ((dictGet st room).getD []) cl ws)) room
        (dictPop (dictSet ((dictGet st room).getD []) cl ws) cl)) room =
      some (dictPop (dictSet ((dictGet st room).getD []) cl ws) cl) :=
    dictGet_dictSet_self _ _ _
  refine ⟨?_, ?_, ?_⟩
  · rw [hst1, hdisc, hget2]
    simp only [Option.getD_some]
    exact dictGet_dictPop_self _ cl hMnd
  · intro r a hra
    rw [hst1, hdisc]
    by_cases hr : r = room
    · subst hr
      have ha : a ≠ cl := fun hh => hra ⟨rfl, hh⟩
      rw [hget2, hget1]
      simp only [Option.getD_some]
      exact dictGet_dictPop_ne _ cl a ha
    · rw [dictGet_dictSet_ne _ room r _ hr]
  · intro msg
    rw [hst1, hdisc]
    unfold send_message
    rw [hget2]
    simp only [Option.getD_some]
    have htr : pyTruthyStr (some cl) = true := by simp [pyTruthyStr, hcl]
    rw [htr]
    simp only [if_true, Option.getD_some]
    rw [dictGet_dictPop_self _ cl hMnd]

/-- Witness for C4: a concrete registry holding `bob` in `lobby`, a fresh
connection 7, room `room1`, client `alice`. -/
theorem connect_disconnect_send_noop_witness :
    registryWF [("lobby", [("bob", 5)])] ∧
    7 ∉ connOf [("lobby", [("bob", 5)])] ∧
    ("alice" : String) ≠ "" ∧
    (dictGet ((dictGet (disconnect (connect [("lobby", [("bob", 5)])] 7
        (some "room1") (some "alice")) 7 "room1") "room1").getD [])
        "alice" = none ∧
      (∀ r a : String, ¬(r = "room1" ∧ a = "alice") →
        dictGet ((dictGet (disconnect (connect [("lobby", [("bob", 5)])] 7
            (some "room1") (some "alice")) 7 "room1") r).getD []) a =
          dictGet ((dictGet (connect [("lobby", [("bob", 5)])] 7
            (some "room1") (some "alice")) r).getD []) a) ∧
      (∀ msg : String,
        send_message (disconnect (connect [("lobby", [("bob", 5)])] 7
            (some "room1") (some "alice")) 7 "room1") msg "room1"
          (some "alice") = [])) :=
  ⟨by decide, by decide, by decide,
    connect_disconnect_send_noop [("lobby", [("bob", 5)])] 7 "room1" "alice"
      (by decide) (by decide) (by decide)⟩

/-- C5 counterexample: the client identifier defaulted by `connect` is the
fixed constant `'0'`, not a per-connection generated identity.  Connecting
two different connections with room and client omitted registers both under
`("default", "0")`, the second evicting the first — were a fresh identity
generated per call, both connections would remain registered. -/
theorem connect_default_client_constant_counterexample :
    connect (connect [] 1 none none) 2 none none =
      [("default", [("0", 2)])] ∧
    1 ∉ connOf (connect (connect [] 1 none none) 2 none none) := by
  constructor
  · rfl
  · decide

/-- C5 (amended): `connect` with room and client omitted accepts the
connection, defaults the room to the sentinel `"default"` and the client to
the fixed identifier `"0"`, and registers the connection under those keys. -/
theorem connect_defaults_sentinels (st : Registry) (ws : Nat) :
    dictGet ((dictGet (connect st ws none none) "default").getD []) "0" =
      some ws := by
  have h : connect st ws none none =
      dictSet st "default" (dictSet ((dictGet st "default").getD []) "0" ws) :=
    rfl
  rw [h, dictGet_dictSet_self]
  simp only [Option.getD_some]
  exact dictGet_dictSet_self _ _ _

theorem send_message_deliveries_in_room (st : Registry) (msg : String)
    (room : String) (clientId? : Option String) :
    ∀ p ∈ send_message st msg room clientId?, p.1 ∈ roomConns st room := by
  intro p hp
  unfold send_message at hp
  by_cases ht : pyTruthyStr clientId? = true
  · rw [if_pos ht] at hp
    cases hdg : dictGet ((dictGet st room).getD []) (clientId?.getD "") with
    | none => rw [hdg] at hp; simp at hp
    | some w =>
      rw [hdg] at hp
      simp only [List.mem_singleton] at hp
      subst hp
      simp only [dictGet, Option.map_eq_some'] at hdg
      obtain ⟨q, hq, hq2⟩ := hdg
      have : q ∈ (dictGet st room).getD [] := List.mem_of_find?_eq_some hq
      simpa [roomConns, hq2] using List.mem_map_of_mem (·.2) this
  · rw [if_neg ht] at hp
    simp only [List.mem_map] at hp
    obtain ⟨q, hq, hq2⟩ := hp
    have : q.2 ∈ roomConns st room := by
      simpa [roomConns] using List.mem_map_of_mem (·.2) hq
    simpa [← hq2] using this

/-- C10: `parse_and_send_message` with a two-element `(data, target)` tuple
whose target is a bare client id (string or int) looks the client up only in
the room named `"default"`: every delivery goes to a connection stored in
that room, so a client registered under any other room receives nothing,
and no error is raised (the routing function is total). -/
theorem route_bare_target_only_default_room {D : Type} (dumps : D → String)
    (st : Registry) (d : D) (t : WsTarget) (ht : isBareTarget t = true) :
    ∀ p ∈ parse_and_send_message dumps st (WsMessage.pair d t),
      p.1 ∈ roomConns st "default" := by
  cases t with
  | str s =>
    intro p hp
    exact send_message_deliveries_in_room st (dumps d) "default" (some s) p hp
  | int n =>
    intro p hp
    exact send_message_deliveries_in_room st (dumps d) "default"
      (some (toString n)) p hp
  | dict c? r? => simp [isBareTarget] at ht

/-- Witness for C10: a registry with `alice` in `room1` and `bob` in
`default`; routing `("hi", "alice")` can only deliver within `default`. -/
theorem route_bare_target_only_default_room_witness :
    isBareTarget (WsTarget.str "alice") = true ∧
    ∀ p ∈ parse_and_send_message (fun s : String => s)
        [("room1", [("alice", 7)]), ("default", [("bob", 9)])]
        (WsMessage.pair "hi" (WsTarget.str "alice")),
      p.1 ∈ roomConns [("room1", [("alice", 7)]), ("default", [("bob", 9)])]
        "default" :=
  ⟨by decide, route_bare_target_only_default_room (fun s : String => s)
    [("room1", [("alice", 7)]), ("default", [("bob", 9)])] "hi"
    (WsTarget.str "alice") (by decide)⟩

theorem cleanSourceGo_collected (ls : List (List Char)) :
    ∀ inside, cleanSourceGo ls inside true = ([], ls) := by
  induction ls with
  | nil => intro inside; rfl
  | cons l ls ih => intro inside; simp [cleanSourceGo, ih]

/-- The declaration phase of `clean_source` consumes some prefix of the
lines — a complete chunk of comment/quote lines — and everything after that
prefix is returned as the body verbatim. -/
theorem cleanSourceGo_chunk (ls : List (List Char)) : ∀ inside,
    ∃ k ≤ ls.length,
      cleanSourceGo ls inside false = (declSpec (ls.take k) inside, ls.drop k) ∧
      chunkOK (ls.take k) inside = true := by
  induction ls with
  | nil => intro inside; exact ⟨0, by simp, rfl, rfl⟩
  | cons l ls ih =>
    intro inside
    by_cases hq : isQuoteLine (pyStrip l) = true
    · cases hin : inside with
      | true =>
        refine ⟨1, by simp, ?_, ?_⟩
        · rw [show cleanSourceGo (l :: ls) true false =
            cleanSourceGo ls false true from by simp [cleanSourceGo, hq]]
          rw [cleanSourceGo_collected]
          simp [declSpec, hq]
        · simp [chunkOK, hq]
      | false =>
        obtain ⟨k, hk, heq, hok⟩ := ih true
        refine ⟨k + 1, by simpa using Nat.succ_le_succ hk, ?_, ?_⟩
        · rw [show cleanSourceGo (l :: ls) false false =
            cleanSourceGo ls true false from by simp [cleanSourceGo, hq]]
          rw [heq]
          simp [declSpec, hq]
        · simp [chunkOK, hq, hok]
    · by_cases hd : (inside || isHashLine (pyStrip l)) = true
      · obtain ⟨k, hk, heq, hok⟩ := ih inside
        refine ⟨k + 1, by simpa using Nat.succ_le_succ hk, ?_, ?_⟩
        · rw [show cleanSourceGo (l :: ls) inside false =
            (stripHash (pyStrip l) :: (cleanSourceGo ls inside false).1,
              (cleanSourceGo ls inside false).2) from by
                simp [cleanSourceGo, hq, hd]]
          rw [heq]
          simp [declSpec, hq, hd]
        · simp [chunkOK, hq, hd, hok]
      · refine ⟨0, by simp, ?_, by simp [chunkOK]⟩
        rw [show cleanSourceGo (l :: ls) inside false =
          ((cleanSourceGo ls inside true).1,
            l :: (cleanSourceGo ls inside true).2) from by
              simp [cleanSourceGo, hq, hd]]
        rw [cleanSourceGo_collected]
        simp [declSpec]

/-- C9: `clean_source` assigns to the declaration block only the first
contiguous chunk of `#`-comment lines and/or lines of the first block-quoted
region (a prefix `take k` satisfying `chunkOK`); the first line that is
neither ends the declaration phase permanently, so the body is exactly
`drop k` — every later line, comment-looking or not, is kept verbatim with
its original indentation. -/
theorem clean_source_first_chunk (lines : List (List Char)) :
    ∃ k ≤ lines.length,
      clean_source lines = (declSpec (lines.take k) false, lines.drop k) ∧
      chunkOK (lines.take k) false = true :=
  cleanSourceGo_chunk lines false

theorem pairwise_boolkey_partition (l : List Cell)
    (h : l.Pairwise (fun a b => cellKeyLe a b = true)) :
    l = l.filter (fun c => !(isHttpCell c)) ++ l.filter (fun c => isHttpCell c) := by
  induction l with
  | nil => simp
  | cons x xs ih =>
    rcases List.pairwise_cons.mp h with ⟨hx, hxs⟩
    by_cases hk : isHttpCell x = true
    · have hall : ∀ y ∈ xs, isHttpCell y = true := by
        intro y hy
        have := hx y hy
        simpa [cellKeyLe, hk] using this
      have h1 : List.filter (fun c => !(isHttpCell c)) (x :: xs) = [] := by
        rw [List.filter_eq_nil_iff]
        intro a ha
        rcases List.mem_cons.mp ha with ha | ha
        · subst ha; simp [hk]
        · simp [hall a ha]
      have h2 : List.filter (fun c => isHttpCell c) (x :: xs) = x :: xs := by
        rw [List.filter_eq_self]
        intro a ha
        rcases List.mem_cons.mp ha with ha | ha
        · subst ha; exact hk
        · exact hall a ha
      rw [h1, h2]
      rfl
    · have hkf : isHttpCell x = false := by simpa using hk
      have e1 : List.filter (fun c => !(isHttpCell c)) (x :: xs) =
          x :: List.filter (fun c => !(isHttpCell c)) xs := by
        simp [List.filter_cons, hkf]
      have e2 : List.filter (fun c => isHttpCell c) (x :: xs) =
          List.filter (fun c => isHttpCell c) xs := by
        simp [List.filter_cons, hkf]
      rw [e1, e2, List.cons_append]
      exact congrArg (x :: ·) (ih hxs)

theorem cellKeyLe_trans : ∀ a b c : Cell,
    cellKeyLe a b → cellKeyLe b c → cellKeyLe a c := by
  intro a b c hab hbc
  unfold cellKeyLe at *
  cases ha : isHttpCell a
  · simp [ha]
  · cases hb : isHttpCell b
    · rw [ha, hb] at hab; simp at hab
    · cases hc : isHttpCell c
      · rw [hb, hc] at hbc; simp at hbc
      · simp [ha, hc]

theorem cellKeyLe_total : ∀ a b : Cell, cellKeyLe a b || cellKeyLe b a := by
  intro a b
  cases ha : isHttpCell a <;> cases hb : isHttpCell b <;> simp [cellKeyLe, ha, hb]

theorem sortCells_filter_append (cells : List Cell) :
    sortCells cells =
      cells.filter (fun c => !(isHttpCell c)) ++
        cells.filter (fun c => isHttpCell c) := by
  have hM : sortCells cells = cells.mergeSort cellKeyLe := rfl
  have hperm : (cells.mergeSort cellKeyLe).Perm cells :=
    List.mergeSort_perm cells cellKeyLe
  have hsorted : (cells.mergeSort cellKeyLe).Pairwise
      (fun a b => cellKeyLe a b = true) :=
    List.sorted_mergeSort cellKeyLe_trans cellKeyLe_total cells
  have key : ∀ (p : Cell → Bool) (u : List Cell),
      u.Sublist (cells.mergeSort cellKeyLe) → (∀ x ∈ u, p x = true) →
      u.length = ((cells.mergeSort cellKeyLe).filter p).length →
      u = (cells.mergeSort cellKeyLe).filter p := by
    intro p u hsub hall hlen
    have h1 : u.filter p = u := List.filter_eq_self.mpr hall
    have h2 : (u.filter p).Sublist ((cells.mergeSort cellKeyLe).filter p) :=
      List.Sublist.filter p hsub
    rw [h1] at h2
    exact h2.eq_of_length hlen
  have hApw : (cells.filter (fun c => !(isHttpCell c))).Pairwise
      (fun a b => cellKeyLe a b = true) := by
    refine List.pairwise_of_forall_mem_list ?_
    intro a haa b hbb
    have ha : (!(isHttpCell a)) = true := (List.mem_filter.mp haa).2
    simp only [cellKeyLe, ha, Bool.true_or]
  have hBpw : (cells.filter (fun c => isHttpCell c)).Pairwise
      (fun a b => cellKeyLe a b = true) := by
    refine List.pairwise_of_forall_mem_list ?_
    intro a haa b hbb
    have hb : isHttpCell b = true := (List.mem_filter.mp hbb).2
    simp only [cellKeyLe, hb, Bool.or_true]
  have hAsub : (cells.filter (fun c => !(isHttpCell c))).Sublist
      (cells.mergeSort cellKeyLe) :=
    List.sublist_mergeSort cellKeyLe_trans cellKeyLe_total hApw
      (List.filter_sublist cells)
  have hBsub : (cells.filter (fun c => isHttpCell c)).Sublist
      (cells.mergeSort cellKeyLe) :=
    List.sublist_mergeSort cellKeyLe_trans cellKeyLe_total hBpw
      (List.filter_sublist cells)
  have hlenA : (cells.filter (fun c => !(isHttpCell c))).length =
      ((cells.mergeSort cellKeyLe).filter (fun c => !(isHttpCell c))).length :=
    (List.Perm.length_eq (hperm.filter (fun c => !(isHttpCell c)))).symm
  have hlenB : (cells.filter (fun c => isHttpCell c)).length =
      ((cells.mergeSort cellKeyLe).filter (fun c => isHttpCell c)).length :=
    (List.Perm.length_eq (hperm.filter (fun c => isHttpCell c))).symm
  have hA : cells.filter (fun c => !(isHttpCell c)) =
      (cells.mergeSort cellKeyLe).filter (fun c => !(isHttpCell c)) :=
    key _ _ hAsub (fun x hx => (List.mem_filter.mp hx).2) hlenA
  have hB : cells.filter (fun c => isHttpCell c) =
      (cells.mergeSort cellKeyLe).filter (fun c => isHttpCell c) :=
    key _ _ hBsub (fun x hx => (List.mem_filter.mp hx).2) hlenB
  rw [hM, hA, hB]
  exact pairwise_boolkey_partition _ hsorted

/-- C2: the assembler's ordering is exactly "all non-HTTP cells first, then
all HTTP cells, each group in original input order": the stable sort keyed
only on `isinstance(x, HttpCell)` equals the concatenation of the two
filters of the input list. -/
theorem sortCells_stable_partition (cells : List Cell) :
    sortCells cells =
      cells.filter (fun c => !(isHttpCell c)) ++
        cells.filter (fun c => isHttpCell c) :=
  sortCells_filter_append cells

set_option maxHeartbeats 1000000 in
theorem scheduledRender_isSome_counter (fn? : Option String) (k k' : Nat)
    (cr iv : Option String) (b : String) :
    (scheduledRender fn? k cr iv b).isSome =
      (scheduledRender fn? k' cr iv b).isSome := by
  unfold scheduledRender
  by_cases hc : pyTruthyStr cr = true
  · simp only [hc, if_true]
    cases mkCronDict ((splitChar ' ' ((cr.getD "").data)).map String.mk) <;> rfl
  · simp only [hc, Bool.false_eq_true, if_false]
    by_cases hi : pyTruthyStr iv = true
    · simp only [hi, if_true]
      cases parse_interval ((iv.getD "").data) with
      | none => rfl
      | some p => rfl
    · simp only [hi, Bool.false_eq_true, if_false]
      rfl


theorem exceptOk_map {e a b : Type} (f : a → b) (x : Except e a) :
    exceptOk (x.map f) = exceptOk x := by
  cases x <;> rfl


theorem renderCell_http_eq (cap : AstCap) (k : Nat) (d : HttpCellData) :
    renderCell cap k (.http d) = (renderHttp cap d).map (fun s => (s, k)) := rfl

theorem renderCell_ws_eq (cap : AstCap) (k : Nat) (d : WsCellData) :
    renderCell cap k (.ws d) = (renderWs cap d).map (fun s => (s, k)) := rfl

theorem renderCell_sched_eq (cap : AstCap) (k : Nat) (d : SchedCellData) :
    renderCell cap k (.sched d) = renderSched cap k d := rfl

theorem renderSched_err (cap : AstCap) (k : Nat) (d : SchedCellData)
    (e : String) (h : cap.funcName d.funcBody = .error e) :
    renderSched cap k d = .error e := by
  unfold renderSched
  rw [h]

theorem renderSched_ok (cap : AstCap) (k : Nat) (d : SchedCellData)
    (fn? : Option String) (h : cap.funcName d.funcBody = .ok fn?) :
    renderSched cap k d =
      match scheduledRender fn? k d.cron d.interval d.funcBody with
      | some r => .ok (r.1, r.2.1)
      | none => .error "ValueError: invalid interval" := by
  unfold renderSched
  rw [h]

theorem renderCell_ok_counter (cap : AstCap) (c : Cell) (k k' : Nat) :
    exceptOk (renderCell cap k c) = exceptOk (renderCell cap k' c) := by
  cases c with
  | code s => rfl
  | http d =>
    rw [renderCell_http_eq, renderCell_http_eq, exceptOk_map, exceptOk_map]
  | ws d =>
    rw [renderCell_ws_eq, renderCell_ws_eq, exceptOk_map, exceptOk_map]
  | sched d =>
    rw [renderCell_sched_eq, renderCell_sched_eq]
    cases hf : cap.funcName d.funcBody with
    | error e =>
      rw [renderSched_err cap k d e hf, renderSched_err cap k' d e hf]
    | ok fn? =>
      rw [renderSched_ok cap k d fn? hf, renderSched_ok cap k' d fn? hf]
      have h := scheduledRender_isSome_counter fn? k k' d.cron d.interval d.funcBody
      cases h1 : scheduledRender fn? k d.cron d.interval d.funcBody with
      | none =>
        cases h2 : scheduledRender fn? k' d.cron d.interval d.funcBody with
        | none => rfl
        | some p => rw [h1, h2] at h; simp at h
      | some p =>
        cases h2 : scheduledRender fn? k' d.cron d.interval d.funcBody with
        | none => rw [h1, h2] at h; simp at h
        | some q => rfl

theorem renderCells_cons_error (cap : AstCap) (k : Nat) (c : Cell)
    (cs : List Cell) (e : String) (h : renderCell cap k c = .error e) :
    renderCells cap k (c :: cs) = .error e := by
  unfold renderCells
  rw [h]

theorem renderCells_cons_ok (cap : AstCap) (k : Nat) (c : Cell)
    (cs : List Cell) (r : String × Nat) (h : renderCell cap k c = .ok r) :
    renderCells cap k (c :: cs) =
      match renderCells cap r.2 cs with
      | .error e => .error e
      | .ok rest => .ok (r.1 :: rest.1, rest.2) := by
  conv_lhs => rw [renderCells]
  rw [h]

theorem renderCells_ok_iff (cap : AstCap) (cells : List Cell) : ∀ k : Nat,
    exceptOk (renderCells cap k cells) = true ↔
      ∀ c ∈ cells, exceptOk (renderCell cap 0 c) = true := by
  induction cells with
  | nil => intro k; simp [renderCells, exceptOk]
  | cons c cs ih =>
    intro k
    constructor
    · intro h x hx
      cases hr : renderCell cap k c with
      | error e =>
        exfalso
        rw [renderCells_cons_error cap k c cs e hr] at h
        simp [exceptOk] at h
      | ok r =>
        rcases List.mem_cons.mp hx with hx | hx
        · subst hx
          rw [renderCell_ok_counter cap x 0 k, hr]
          rfl
        · rw [renderCells_cons_ok cap k c cs r hr] at h
          cases hrest : renderCells cap r.2 cs with
          | error e =>
            exfalso
            simp only [hrest] at h
            simp [exceptOk] at h
          | ok rr =>
            have hok : exceptOk (renderCells cap r.2 cs) = true := by
              rw [hrest]; rfl
            exact ((ih r.2).mp hok) x hx
    · intro h
      have hc : exceptOk (renderCell cap 0 c) = true :=
        h c (List.mem_cons_self c cs)
      rw [renderCell_ok_counter cap c 0 k] at hc
      cases hr : renderCell cap k c with
      | error e => rw [hr] at hc; simp [exceptOk] at hc
      | ok r =>
        have hcs : exceptOk (renderCells cap r.2 cs) = true :=
          (ih r.2).mpr (fun x hx => h x (List.mem_cons_of_mem c hx))
        cases hrest : renderCells cap r.2 cs with
        | error e => rw [hrest] at hcs; simp [exceptOk] at hcs
        | ok rr =>
          rw [renderCells_cons_ok cap k c cs r hr]
          simp only [hrest]
          rfl

/-- C8 (amended): a notebook's rendering succeeds exactly when every one of
its cells renders successfully — a single cell whose rendering raises (an
unrecognized WebSocket `type`, a body the introspector cannot parse, a
malformed interval) makes `parse_notebook_cells` raise, losing the output
of every other cell of the notebook. -/
theorem notebook_ok_iff_every_cell_ok (cap : AstCap) (k : Nat)
    (cells : List Cell) :
    exceptOk (parse_notebook_cells cap k cells) = true ↔
      ∀ c ∈ cells, exceptOk (renderCell cap 0 c) = true := by
  unfold parse_notebook_cells
  rw [renderCells_ok_iff cap (sortCells cells) k]
  constructor
  · intro h c hc
    exact h c (List.mem_mergeSort.mpr hc)
  · intro h c hc
    exact h c (List.mem_mergeSort.mp hc)

/-- C8 counterexample: a notebook whose only cells are one plain code cell
and one WebSocket cell with the unrecognized type `foo`.  The code cell
alone compiles, but adding the bad cell makes the whole notebook's
compilation raise `ValueError` out of `parse_notebook_cells`, losing the
good cell's output — so compiler errors are not all local to one cell. -/
theorem single_bad_cell_fails_notebook_counterexample :
    parse_notebook_cells ⟨fun _ => .ok (some "handler"), fun _ => .ok false⟩ 0
      [Cell.code "x = 1"] = .ok (["x = 1"], 0) ∧
    parse_notebook_cells ⟨fun _ => .ok (some "handler"), fun _ => .ok false⟩ 0
      [Cell.code "x = 1",
       Cell.ws ⟨"/ws", "def handler(data): return data", "foo",
         [], [], [], true⟩] =
      .error "Unsupported ws_type: foo" := by
  constructor
  · have h1 : sortCells [Cell.code "x = 1"] = [Cell.code "x = 1"] := by
      rw [sortCells_filter_append]; rfl
    unfold parse_notebook_cells
    rw [h1]
    rfl
  · have h2 : sortCells [Cell.code "x = 1",
        Cell.ws ⟨"/ws", "def handler(data): return data", "foo",
          [], [], [], true⟩] =
        [Cell.code "x = 1",
         Cell.ws ⟨"/ws", "def handler(data): return data", "foo",
           [], [], [], true⟩] := by
      rw [sortCells_filter_append]; rfl
    unfold parse_notebook_cells
    rw [h2]
    rfl

theorem mkCronDict_none_of_short (l : List String) (h : l.length < 6) :
    mkCronDict l = none := by
  rcases l with _ | ⟨x0, _ | ⟨x1, _ | ⟨x2, _ | ⟨x3, _ | ⟨x4, _ | ⟨x5, rest⟩⟩⟩⟩⟩⟩
  · rfl
  · rfl
  · rfl
  · rfl
  · rfl
  · rfl
  · exfalso
    simp [List.length_cons] at h
    omega

/-- C7: a scheduled cell whose cron string has fewer than six
space-separated fields renders as the comment `# Invalid cron format` (not
handler code) with a warning, and the render function is total (no raise
aborts the compilation); with exactly six fields the `cron_dict` maps them
positionally to second, minute, hour, day, month and day-of-week. -/
theorem scheduled_cron_render :
    (∀ (fn? : Option String) (k : Nat) (cron : String) (iv : Option String)
        (body : String),
      cron ≠ "" → (splitChar ' ' cron.data).length < 6 →
      scheduledRender fn? k (some cron) iv body =
        some ("# Invalid cron format", (if fn?.isSome then k else k + 1),
          true)) ∧
    (∀ a0 a1 a2 a3 a4 a5 : List Char,
      ' ' ∉ a0 → ' ' ∉ a1 → ' ' ∉ a2 → ' ' ∉ a3 → ' ' ∉ a4 → ' ' ∉ a5 →
      mkCronDict ((splitChar ' '
          (a0 ++ ' ' :: (a1 ++ ' ' :: (a2 ++ ' ' :: (a3 ++ ' ' ::
            (a4 ++ ' ' :: a5)))))).map String.mk) =
        some ⟨String.mk a0, String.mk a1, String.mk a2, String.mk a3,
          String.mk a4, String.mk a5⟩) := by
  constructor
  · intro fn? k cron iv body hne hlen
    have htr : pyTruthyStr (some cron) = true := by simp [pyTruthyStr, hne]
    have hdict : mkCronDict ((splitChar ' '
        (((some cron : Option String).getD "").data)).map String.mk) = none := by
      apply mkCronDict_none_of_short
      simpa using hlen
    unfold scheduledRender
    rw [htr]
    simp only [if_true, hdict]
  · intro a0 a1 a2 a3 a4 a5 h0 h1 h2 h3 h4 h5
    rw [splitChar_append_sep ' ' a0 _ h0, splitChar_append_sep ' ' a1 _ h1,
      splitChar_append_sep ' ' a2 _ h2, splitChar_append_sep ' ' a3 _ h3,
      splitChar_append_sep ' ' a4 _ h4, splitChar_of_not_mem ' ' a5 h5]
    rfl

/-- Witness for C7: `"0 0 12"` renders as the invalid-cron comment;
`"0 0 12 * * *"` maps positionally into the six cron slots. -/
theorem scheduled_cron_render_witness :
    scheduledRender (some "tick") 3 (some "0 0 12") none "pass" =
      some ("# Invalid cron format", 3, true) ∧
    mkCronDict ((splitChar ' ' ("0 0 12 * * *".data)).map String.mk) =
      some ⟨"0", "0", "12", "*", "*", "*"⟩ := by
  constructor
  · have h := (scheduled_cron_render).1 (some "tick") 3 "0 0 12" none "pass"
      (by decide) (by decide)
    simpa using h
  · have h := (scheduled_cron_render).2 "0".data "0".data "12".data
      "*".data "*".data "*".data (by decide) (by decide) (by decide)
      (by decide) (by decide) (by decide)
    rw [show ("0 0 12 * * *".data) =
      ("0".data ++ ' ' :: ("0".data ++ ' ' :: ("12".data ++ ' ' ::
        ("*".data ++ ' ' :: ("*".data ++ ' ' :: "*".data))))) by decide]
    exact h

end Neutrino
